import Mathlib

/-!
Verification of the forecast-dashboard aggregation service (`src/app.py`).

The Python application reads forecast rows from a Supabase REST backend and
exposes aggregated views over them.  We embed the pure content of the code:

* the `forecasts` table is a `List ForecastRow` (the backing store is modelled
  as `Except String (List ForecastRow)`: either the table, or an exception
  message raised by the HTTP client);
* the PostgREST query issued by `fetch_forecasts` (`eq` filters on
  `store_id`/`product_id`, optional `gte`/`lte` range on `forecast_date`,
  `order=forecast_date.asc`) is embedded as filtering followed by a stable
  ascending sort; dates are ISO `YYYY-MM-DD` strings, whose lexicographic
  order coincides with calendar order;
* Python dicts preserve insertion order, so the dict accumulation in
  `fetch_top_skus` / `fetch_critical_skus` is embedded as an association list
  updated in place with new keys appended (`upsert`), and the stable Python
  `sorted(..., reverse=True)` as a stable insertion sort;
* Python float arithmetic in the `avg` statistic is modelled exactly over `ℚ`,
  with `round(x, 2)` embedded as round-half-to-even at two decimal places;
* Flask responses are embedded as inductive results carrying the HTTP status
  and the `error` field of the JSON body.
-/

/-- One row of the `forecasts` table. -/
structure ForecastRow where
  store_id : String
  product_id : String
  forecast_date : String
  forecast_qty : Nat
  model : String
deriving DecidableEq, Repr, Inhabited

/-- Python truthiness of an optional form field: `None` and `""` are falsy. -/
def truthy : Option String → Bool
  | none => false
  | some s => decide (s ≠ "")

/-- The form fields read by the `/forecast` and `/export` routes. -/
structure Form where
  store_id : Option String
  product_id : Option String
  start_date : Option String
  end_date : Option String
deriving DecidableEq, Repr

/-- Ascending order on rows by `forecast_date` (the `order=forecast_date.asc`
query parameter). -/
def dateLe (a b : ForecastRow) : Prop := a.forecast_date ≤ b.forecast_date

instance : DecidableRel dateLe := fun a b =>
  inferInstanceAs (Decidable (a.forecast_date ≤ b.forecast_date))

instance : IsTotal ForecastRow dateLe := ⟨fun a b => le_total a.forecast_date b.forecast_date⟩

instance : IsTrans ForecastRow dateLe := ⟨fun _ _ _ h h' => le_trans h h'⟩

/-- The function `fetch_forecasts` from `src/app.py`: rows matching `store_id` and
`product_id`, restricted to the closed date interval only when both bounds
are truthy (the code guards with `if start_date and end_date`), ordered
ascending by `forecast_date`. -/
def fetch_forecasts (table : List ForecastRow) (sid pid : String)
    (start_date end_date : Option String) : List ForecastRow :=
  let base := table.filter fun r => decide (r.store_id = sid) && decide (r.product_id = pid)
  let ranged :=
    if truthy start_date && truthy end_date then
      base.filter fun r =>
        decide (start_date.getD "" ≤ r.forecast_date) && decide (r.forecast_date ≤ end_date.getD "")
    else base
  List.insertionSort dateLe ranged

/-- Insert-or-update on an association list, combining an existing value with
`f` and appending unknown keys at the end: the embedding of one step of the
Python dict accumulation (dicts preserve insertion order). -/
def upsert (f : Nat → Nat → Nat) : List (String × Nat) → String → Nat → List (String × Nat)
  | [], k, q => [(k, q)]
  | (p, v) :: rest, k, q =>
    if p = k then (p, f v q) :: rest else (p, v) :: upsert f rest k q

/-- Fold a row list into per-product accumulated quantities, as the loops in
`fetch_top_skus` (`f := (+)`) and `fetch_critical_skus` (`f := Nat.min`) do. -/
def groupBy (f : Nat → Nat → Nat) (rows : List ForecastRow) : List (String × Nat) :=
  rows.foldl (fun acc r => upsert f acc r.product_id r.forecast_qty) []

/-- Descending order on `(product_id, total)` pairs by total, the key used by
`sorted(totals.items(), key=lambda x: x[1], reverse=True)`. -/
def totalGe (a b : String × Nat) : Prop := b.2 ≤ a.2

instance : DecidableRel totalGe := fun a b => inferInstanceAs (Decidable (b.2 ≤ a.2))

instance : IsTotal (String × Nat) totalGe := ⟨fun a b => le_total b.2 a.2⟩

instance : IsTrans (String × Nat) totalGe := ⟨fun _ _ _ h h' => le_trans h' h⟩

/-- The function `fetch_top_skus` from `src/app.py`: per-product totals over the whole
table, sorted descending by total (the Python `sorted` is stable, also with
`reverse=True`), truncated to `limit`. -/
def fetch_top_skus (table : List ForecastRow) (limit : Nat := 10) : List (String × Nat) :=
  (List.insertionSort totalGe (groupBy (· + ·) table)).take limit

/-- The function `fetch_critical_skus` from `src/app.py`: per-product minimum quantity over
the whole table, keeping products whose minimum is strictly below 5. -/
def fetch_critical_skus (table : List ForecastRow) : List (String × Nat) :=
  (groupBy Nat.min table).filter fun pr => decide (pr.2 < 5)

/-- Round a rational to the nearest integer, ties to even: the behaviour of
the Python `round` function (the float arithmetic of the code is modelled exactly
over `ℚ`). -/
def roundHalfEven (q : ℚ) : ℤ :=
  if q - ⌊q⌋ < 1/2 then ⌊q⌋
  else if 1/2 < q - ⌊q⌋ then ⌊q⌋ + 1
  else if ⌊q⌋ % 2 = 0 then ⌊q⌋ else ⌊q⌋ + 1

/-- The expression `round(x, 2)` of the code: round to two decimal places. -/
def round2 (q : ℚ) : ℚ := (roundHalfEven (q * 100) : ℚ) / 100

/-- The `avg`/`max`/`min` record built by the `forecast` route. -/
structure Stats where
  avg : ℚ
  max : Nat
  min : Nat
deriving DecidableEq, Repr

/-- The statistics the `forecast` route computes over the quantity list
`q :: qs`: `avg` is the arithmetic mean rounded to two decimals, `max`/`min`
are the Python `max`/`min` of the list (left folds). -/
def statsOfList (q : Nat) (qs : List Nat) : Stats :=
  { avg := round2 ((((q :: qs).map fun n : Nat => (n : ℚ)).sum) / (((q :: qs).length : Nat) : ℚ))
    max := qs.foldl Nat.max q
    min := qs.foldl Nat.min q }

/-- The statistics computation of the Aggregation Engine of the spec
(`computeStats`): undefined (`none`) on an empty row set, otherwise the
`Stats` built by the code. -/
def computeStats : List Nat → Option Stats
  | [] => none
  | q :: qs => some (statsOfList q qs)

/-- The arithmetic mean of a quantity list, as an exact rational. -/
def meanQ (qs : List Nat) : ℚ := ((qs.map fun n : Nat => (n : ℚ)).sum) / ((qs.length : Nat) : ℚ)

/-- The JSON payload of a successful `/forecast` response. -/
structure ForecastResponse where
  latest_qty : Nat
  latest_date : String
  latest_model : String
  history : List (String × Nat × String)
  stats : Stats
  top_skus : List (String × Nat)
  critical_skus : List (String × Nat)
deriving DecidableEq, Repr

/-- Result of the `/forecast` route: HTTP status plus the JSON body content
(`error` message, or the success payload). -/
inductive ForecastResult where
  | badRequest (msg : String)
  | notFound (msg : String)
  | serverError (msg : String)
  | ok (resp : ForecastResponse)
deriving DecidableEq, Repr

/-- HTTP status code of a `/forecast` result. -/
def status : ForecastResult → Nat
  | .badRequest _ => 400
  | .notFound _ => 404
  | .serverError _ => 500
  | .ok _ => 200

/-- The `error` field of the JSON body of a `/forecast` result. -/
def errorField : ForecastResult → Option String
  | .badRequest m => some m
  | .notFound m => some m
  | .serverError m => some m
  | .ok _ => none

/-- The `/forecast` route of `src/app.py`.  `db` is the backing store: the
table, or the message of the exception its client raises.  Parameter
validation happens before any fetch; all fetch failures are caught by the
`except` clause of the route, which interpolates the exception into the body. -/
def forecast (db : Except String (List ForecastRow)) (f : Form) : ForecastResult :=
  if truthy f.store_id && truthy f.product_id then
    match db with
    | .error e => .serverError ("Query failed: " ++ e)
    | .ok table =>
      match fetch_forecasts table (f.store_id.getD "") (f.product_id.getD "")
          f.start_date f.end_date with
      | [] => .notFound "No forecast found"
      | r0 :: rs =>
        .ok
          { latest_qty := ((r0 :: rs).getLastD r0).forecast_qty
            latest_date := ((r0 :: rs).getLastD r0).forecast_date
            latest_model := ((r0 :: rs).getLastD r0).model
            history := (r0 :: rs).map fun x => (x.forecast_date, x.forecast_qty, x.model)
            stats := statsOfList r0.forecast_qty (rs.map (·.forecast_qty))
            top_skus := fetch_top_skus table 10
            critical_skus := fetch_critical_skus table }
  else .badRequest "store_id and product_id are required"

/-- Result of the `/export` route: HTTP status plus body (an `error` JSON
field, or the file name and CSV content of the attachment). -/
inductive ExportResult where
  | badRequest (msg : String)
  | notFound (msg : String)
  | serverError (msg : String)
  | file (name content : String)
deriving DecidableEq, Repr

/-- HTTP status code of an `/export` result. -/
def exportStatus : ExportResult → Nat
  | .badRequest _ => 400
  | .notFound _ => 404
  | .serverError _ => 500
  | .file _ _ => 200

/-- The `error` field of the JSON body of an `/export` result. -/
def exportErrorField : ExportResult → Option String
  | .badRequest m => some m
  | .notFound m => some m
  | .serverError m => some m
  | .file _ _ => none

/-- Does a CSV field need quoting?  The Python `csv.writer` with the default
`QUOTE_MINIMAL` quotes fields containing the delimiter, the quote character,
or a line-terminator character. -/
def needsQuote (f : List Char) : Bool :=
  f.any fun c => c = ',' || c = '"' || c = '\r' || c = '\n'

/-- Double every quote character, the standard CSV escape. -/
def escapeQ : List Char → List Char
  | [] => []
  | c :: cs => if c = '"' then '"' :: '"' :: escapeQ cs else c :: escapeQ cs

/-- Serialize one CSV field, quoting exactly when required. -/
def encodeField (f : List Char) : List Char :=
  if needsQuote f then '"' :: (escapeQ f ++ ['"']) else f

/-- Serialize the fields of one record, comma-separated. -/
def encodeFieldsSep : List (List Char) → List Char
  | [] => []
  | [f] => encodeField f
  | f :: fs => encodeField f ++ ',' :: encodeFieldsSep fs

/-- Serialize one CSV record with the `\r\n` terminator `csv.writer` emits. -/
def encodeRecord (fs : List (List Char)) : List Char :=
  encodeFieldsSep fs ++ ['\r', '\n']

/-- The string fields `csv.writer` receives for one row in `export_csv`
(`str` is applied to the integer quantity). -/
def rowFields (r : ForecastRow) : List String :=
  [r.forecast_date, r.store_id, r.product_id, Nat.repr r.forecast_qty, r.model]

/-- The header written by `export_csv`, in this exact order. -/
def headerFields : List String :=
  ["forecast_date", "store_id", "product_id", "forecast_qty", "model"]

/-- The CSV serialization of `export_csv`: the fixed header record followed by
one record per input row. -/
def toCsv (rows : List ForecastRow) : String :=
  String.mk (((headerFields :: rows.map rowFields).map
    fun fs => encodeRecord (fs.map String.data)).flatten)

/-- Scan an unquoted CSV field: everything up to the next delimiter or
line-terminator character, which is left in the remainder. -/
def scanUnquoted : List Char → List Char × List Char
  | [] => ([], [])
  | c :: cs =>
    if c = ',' || c = '\r' || c = '\n' then ([], c :: cs)
    else
      let p := scanUnquoted cs
      (c :: p.1, p.2)

/-- Scan the body of a quoted CSV field (the opening quote is already
consumed): a doubled quote stands for one quote, a single quote closes the
field. -/
def scanQuoted : List Char → List Char × List Char
  | [] => ([], [])
  | [c] => if c = '"' then ([], []) else ([c], [])
  | c :: c2 :: cs =>
    if c = '"' then
      if c2 = '"' then
        let p := scanQuoted cs
        ('"' :: p.1, p.2)
      else ([], c2 :: cs)
    else
      let p := scanQuoted (c2 :: cs)
      (c :: p.1, p.2)

/-- Scan one CSV field, quoted or not. -/
def parseField : List Char → List Char × List Char
  | [] => ([], [])
  | c :: cs => if c = '"' then scanQuoted cs else scanUnquoted (c :: cs)

/-- Scan the comma-separated fields of one CSV record up to and including its
line terminator (`fuel` bounds the number of fields). -/
def parseFieldsAux : Nat → List Char → List (List Char) × List Char
  | 0, input => ([], input)
  | fuel + 1, input =>
    let p := parseField input
    match p.2 with
    | [] => ([p.1], [])
    | c :: cs =>
      if c = ',' then
        let q := parseFieldsAux fuel cs
        (p.1 :: q.1, q.2)
      else if c = '\r' then
        match cs with
        | '\n' :: cs2 => ([p.1], cs2)
        | _ => ([p.1], cs)
      else if c = '\n' then ([p.1], cs)
      else ([p.1], p.2)

/-- Scan a sequence of CSV records (`fuel` bounds the number of records). -/
def parseRecords : Nat → List Char → List (List (List Char))
  | 0, _ => []
  | _ + 1, [] => []
  | fuel + 1, input =>
    let p := parseFieldsAux (input.length + 1) input
    p.1 :: parseRecords fuel p.2

/-- A standard CSV reader: split a CSV document into records of string
fields, honouring minimal quoting. -/
def parseCsv (s : String) : List (List String) :=
  (parseRecords (s.data.length + 1) s.data).map fun rcd => rcd.map String.mk

/-- The `/export` route of `src/app.py`: parameter validation, fetch with no
date range, 404 on an empty row set, otherwise a CSV attachment named
`forecast_<store_id>_<product_id>.csv`; exceptions from the backing store are
interpolated into the 500 body. -/
def export_csv (db : Except String (List ForecastRow)) (f : Form) : ExportResult :=
  if truthy f.store_id && truthy f.product_id then
    match db with
    | .error e => .serverError ("Export failed: " ++ e)
    | .ok table =>
      match fetch_forecasts table (f.store_id.getD "") (f.product_id.getD "") none none with
      | [] => .notFound "No data to export"
      | r0 :: rs =>
        .file ("forecast_" ++ f.store_id.getD "" ++ "_" ++ f.product_id.getD "" ++ ".csv")
          (toCsv (r0 :: rs))
  else .badRequest "store_id and product_id are required"

/-- Association-list lookup with propositional key equality. -/
def lookupP : List (String × Nat) → String → Option Nat
  | [], _ => none
  | (p, v) :: rest, k => if p = k then some v else lookupP rest k

/-- The quantities of the rows of one product, in table order. -/
def groupQtys (table : List ForecastRow) (p : String) : List Nat :=
  (table.filter fun r => decide (r.product_id = p)).map (·.forecast_qty)

/-- Left-fold accumulation of a non-empty list, `none` on the empty list:
the value a Python dict accumulation loop leaves for one key. -/
def accF (f : Nat → Nat → Nat) : List Nat → Option Nat
  | [] => none
  | q :: qs => some (qs.foldl f q)

/-- Total forecast quantity of one product over a table. -/
def totalQty (table : List ForecastRow) (p : String) : Nat := (groupQtys table p).sum

/-- The keys of an association list. -/
def keysOf (l : List (String × Nat)) : List String := l.map Prod.fst

/-- Index of the first occurrence of a string in a list (length of the list
when absent). -/
def idxOf (p : String) : List String → Nat
  | [] => 0
  | q :: l => if q = p then 0 else idxOf p l + 1

/-- The elements of a list not in `seen`, each kept at its first occurrence,
in first-occurrence order. -/
def firstSeenNotIn : List String → List String → List String
  | _, [] => []
  | seen, p :: ps =>
    if p ∈ seen then firstSeenNotIn seen ps else p :: firstSeenNotIn (p :: seen) ps

/-- Ranking order a stable descending sort must respect: strictly larger
total first, ties broken by first occurrence in the product list `L`. -/
def stRel (L : List String) (a b : String × Nat) : Prop :=
  b.2 < a.2 ∨ (a.2 = b.2 ∧ idxOf a.1 L < idxOf b.1 L)

/-- Demonstration table of the `topSkus` example of the spec: products `A` (3 then
5) and `B` (10). -/
def topDemo : List ForecastRow :=
  [⟨"S1", "A", "2024-01-01", 3, "m"⟩, ⟨"S1", "B", "2024-01-01", 10, "m"⟩,
   ⟨"S2", "A", "2024-01-02", 5, "m"⟩]

/-- Demonstration table with tied totals: `A` and `B` both total 4, `A`
seen first. -/
def tieDemo : List ForecastRow :=
  [⟨"S1", "A", "2024-01-01", 4, "m"⟩, ⟨"S1", "B", "2024-01-01", 4, "m"⟩]

/-- Demonstration table of the `criticalSkus` example of the spec. -/
def critDemo : List ForecastRow :=
  [⟨"S1", "A", "2024-01-01", 2, "m"⟩, ⟨"S1", "A", "2024-01-02", 8, "m"⟩,
   ⟨"S1", "B", "2024-01-01", 6, "m"⟩]

/-- The `/forecast` response for store `S2`, product `A` over `topDemo`. -/
def forecastDemoResp : ForecastResponse :=
  { latest_qty := 5
    latest_date := "2024-01-02"
    latest_model := "m"
    history := [("2024-01-02", 5, "m")]
    stats := statsOfList 5 []
    top_skus := fetch_top_skus topDemo 10
    critical_skus := fetch_critical_skus topDemo }

/-- The `/forecast` response for store `S1`, product `A` over `topDemo`. -/
def forecastDemoRespS1 : ForecastResponse :=
  { latest_qty := 3
    latest_date := "2024-01-01"
    latest_model := "m"
    history := [("2024-01-01", 3, "m")]
    stats := statsOfList 3 []
    top_skus := fetch_top_skus topDemo 10
    critical_skus := fetch_critical_skus topDemo }

/-- A realistic exception message of the HTTP client: `raise_for_status`
embeds the request URL (the raw connection string) in the exception text. -/
def leakMsg : String :=
  "401 Client Error: Unauthorized for url: https://example.supabase.co/rest/v1/forecasts"

/-- What may legally follow one encoded field in a CSV document: nothing, a
field separator, or a record terminator. -/
def restSep (rest : List Char) : Prop :=
  rest = [] ∨ (∃ cs, rest = ',' :: cs) ∨ (∃ cs, rest = '\r' :: cs)

lemma roundHalfEven_intCast (n : ℤ) : roundHalfEven (n : ℚ) = n := by
  unfold roundHalfEven
  rw [Int.floor_intCast]
  norm_num

lemma le_roundHalfEven {a : ℤ} {q : ℚ} (h : (a : ℚ) ≤ q) : a ≤ roundHalfEven q := by
  have hf : a ≤ ⌊q⌋ := Int.le_floor.mpr h
  unfold roundHalfEven
  split_ifs <;> omega

lemma roundHalfEven_le {b : ℤ} {q : ℚ} (h : q ≤ (b : ℚ)) : roundHalfEven q ≤ b := by
  have hfb : ⌊q⌋ ≤ b := by


    have h' := Int.floor_le_floor h
    rwa [Int.floor_intCast] at h'
  have key : ¬(q - ⌊q⌋ < 1/2) → ⌊q⌋ + 1 ≤ b := by
    intro hn
    have h2 : (1 : ℚ)/2 ≤ q - ⌊q⌋ := not_lt.mp hn
    have h3 : ((⌊q⌋ : ℤ) : ℚ) < (b : ℚ) := by linarith
    have h4 : ⌊q⌋ < b := by exact_mod_cast h3
    omega
  unfold roundHalfEven
  split_ifs with h1 h2 h3
  · exact hfb
  · exact key h1
  · exact hfb
  · exact key h1

lemma le_round2 {a : ℤ} {q : ℚ} (h : (a : ℚ) ≤ q) : (a : ℚ) ≤ round2 q := by
  have h1 : ((a * 100 : ℤ) : ℚ) ≤ q * 100 := by push_cast; linarith
  have h2 : ((a * 100 : ℤ) : ℚ) ≤ (roundHalfEven (q * 100) : ℚ) := by
    exact_mod_cast le_roundHalfEven h1
  unfold round2
  rw [le_div_iff₀ (by norm_num : (0 : ℚ) < 100)]
  push_cast at h2 ⊢
  linarith

lemma round2_le {b : ℤ} {q : ℚ} (h : q ≤ (b : ℚ)) : round2 q ≤ (b : ℚ) := by
  have h1 : q * 100 ≤ ((b * 100 : ℤ) : ℚ) := by push_cast; linarith
  have h2 : (roundHalfEven (q * 100) : ℚ) ≤ ((b * 100 : ℤ) : ℚ) := by
    exact_mod_cast roundHalfEven_le h1
  unfold round2
  rw [div_le_iff₀ (by norm_num : (0 : ℚ) < 100)]
  push_cast at h2 ⊢
  linarith

lemma round2_intCast (n : ℤ) : round2 (n : ℚ) = (n : ℚ) := by
  unfold round2
  have h : (n : ℚ) * 100 = ((n * 100 : ℤ) : ℚ) := by push_cast; ring
  rw [h, roundHalfEven_intCast]
  push_cast
  ring

lemma foldl_min_mem (qs : List Nat) : ∀ q, qs.foldl Nat.min q ∈ q :: qs := by
  induction qs with
  | nil => intro q; simp
  | cons a t ih =>
    intro q
    simp only [List.foldl_cons]
    rcases List.mem_cons.mp (ih (Nat.min q a)) with h | h
    · rw [h]
      rcases Nat.le_total q a with hqa | haq
      · simp [Nat.min_def, hqa]
      · by_cases hc : q ≤ a
        · simp [Nat.min_def, hc]
        · simp [Nat.min_def, hc]
    · exact List.mem_cons_of_mem _ (List.mem_cons_of_mem _ h)

lemma foldl_min_le (qs : List Nat) : ∀ q, ∀ x ∈ q :: qs, qs.foldl Nat.min q ≤ x := by
  induction qs with
  | nil =>
    intro q x hx
    simp only [List.mem_singleton] at hx
    simp [hx]
  | cons a t ih =>
    intro q x hx
    simp only [List.foldl_cons]
    have hhead : t.foldl Nat.min (Nat.min q a) ≤ Nat.min q a :=
      ih (Nat.min q a) _ (List.mem_cons_self _ _)
    rcases List.mem_cons.mp hx with h | h
    · subst h
      exact le_trans hhead (Nat.min_le_left _ _)
    · rcases List.mem_cons.mp h with h' | h'
      · subst h'
        exact le_trans hhead (Nat.min_le_right _ _)
      · exact ih (Nat.min q a) x (List.mem_cons_of_mem _ h')

lemma foldl_max_mem (qs : List Nat) : ∀ q, qs.foldl Nat.max q ∈ q :: qs := by
  induction qs with
  | nil => intro q; simp
  | cons a t ih =>
    intro q
    simp only [List.foldl_cons]
    rcases List.mem_cons.mp (ih (Nat.max q a)) with h | h
    · rw [h]
      by_cases hc : q ≤ a
      · simp [Nat.max_def, hc]
      · simp [Nat.max_def, hc]
    · exact List.mem_cons_of_mem _ (List.mem_cons_of_mem _ h)

lemma le_foldl_max (qs : List Nat) : ∀ q, ∀ x ∈ q :: qs, x ≤ qs.foldl Nat.max q := by
  induction qs with
  | nil =>
    intro q x hx
    simp only [List.mem_singleton] at hx
    simp [hx]
  | cons a t ih =>
    intro q x hx
    simp only [List.foldl_cons]
    have hhead : Nat.max q a ≤ t.foldl Nat.max (Nat.max q a) :=
      ih (Nat.max q a) _ (List.mem_cons_self _ _)
    rcases List.mem_cons.mp hx with h | h
    · subst h
      exact le_trans (Nat.le_max_left _ _) hhead
    · rcases List.mem_cons.mp h with h' | h'
      · subst h'
        exact le_trans (Nat.le_max_right _ _) hhead
      · exact ih (Nat.max q a) x (List.mem_cons_of_mem _ h')

lemma mul_length_le_sum (qs : List Nat) (m : Nat) (h : ∀ x ∈ qs, m ≤ x) :
    (m : ℚ) * qs.length ≤ (qs.map fun n : Nat => (n : ℚ)).sum := by
  induction qs with
  | nil => simp
  | cons a t ih =>
    simp only [List.map_cons, List.sum_cons, List.length_cons]
    have ha : (m : ℚ) ≤ (a : ℚ) := by
      exact_mod_cast h a (List.mem_cons_self _ _)
    have ht := ih fun x hx => h x (List.mem_cons_of_mem _ hx)
    have hlen : ((t.length + 1 : Nat) : ℚ) = (t.length : ℚ) + 1 := by push_cast; ring
    rw [hlen]
    linarith

lemma sum_le_mul_length (qs : List Nat) (M : Nat) (h : ∀ x ∈ qs, x ≤ M) :
    (qs.map fun n : Nat => (n : ℚ)).sum ≤ (M : ℚ) * qs.length := by
  induction qs with
  | nil => simp
  | cons a t ih =>
    simp only [List.map_cons, List.sum_cons, List.length_cons]
    have ha : (a : ℚ) ≤ (M : ℚ) := by
      exact_mod_cast h a (List.mem_cons_self _ _)
    have ht := ih fun x hx => h x (List.mem_cons_of_mem _ hx)
    have hlen : ((t.length + 1 : Nat) : ℚ) = (t.length : ℚ) + 1 := by push_cast; ring
    rw [hlen]
    linarith

/-- C1: for every non-empty quantity list the statistics record has `avg`
equal to the arithmetic mean rounded to two decimal places, `max`/`min` equal
to the extrema of the list, and satisfies `min ≤ avg ≤ max`; on a singleton
all three equal that single quantity. -/
theorem computeStats_correct (qs : List Nat) (s : Stats) (h : computeStats qs = some s) :
    s.avg = round2 (meanQ qs) ∧
    s.max ∈ qs ∧ (∀ x ∈ qs, x ≤ s.max) ∧
    s.min ∈ qs ∧ (∀ x ∈ qs, s.min ≤ x) ∧
    (s.min : ℚ) ≤ s.avg ∧ s.avg ≤ (s.max : ℚ) ∧
    ∀ q, qs = [q] → s.avg = (q : ℚ) ∧ s.max = q ∧ s.min = q := by
  match qs, h with
  | q :: qs', h =>
    have hs : s = statsOfList q qs' := by
      simpa [computeStats] using h.symm
    subst hs
    have hmaxmem : (q :: qs').foldl Nat.max q ∈ q :: qs' := by
      simpa using foldl_max_mem qs' q
    have hminmem := foldl_min_mem qs' q
    have hmaxle := le_foldl_max qs' q
    have hminle := foldl_min_le qs' q
    have hlenpos : (0 : ℚ) < (((q :: qs').length : Nat) : ℚ) := by
      have : 0 < (q :: qs').length := by simp
      exact_mod_cast this
    have hsum_lo : ((qs'.foldl Nat.min q : Nat) : ℚ) * ((q :: qs').length : Nat) ≤
        ((q :: qs').map fun n : Nat => (n : ℚ)).sum :=
      mul_length_le_sum _ _ (hminle)
    have hsum_hi : ((q :: qs').map fun n : Nat => (n : ℚ)).sum ≤
        ((qs'.foldl Nat.max q : Nat) : ℚ) * ((q :: qs').length : Nat) :=
      sum_le_mul_length _ _ (hmaxle)
    have hmean_lo : ((qs'.foldl Nat.min q : Nat) : ℚ) ≤ meanQ (q :: qs') := by
      rw [meanQ, le_div_iff₀ hlenpos]
      exact hsum_lo
    have hmean_hi : meanQ (q :: qs') ≤ ((qs'.foldl Nat.max q : Nat) : ℚ) := by
      rw [meanQ, div_le_iff₀ hlenpos]
      exact hsum_hi
    have havg_lo : ((qs'.foldl Nat.min q : Nat) : ℚ) ≤ round2 (meanQ (q :: qs')) := by
      have h' : (((qs'.foldl Nat.min q : Nat) : ℤ) : ℚ) ≤ meanQ (q :: qs') := by
        push_cast
        exact_mod_cast hmean_lo
      have := le_round2 h'
      exact_mod_cast this
    have havg_hi : round2 (meanQ (q :: qs')) ≤ ((qs'.foldl Nat.max q : Nat) : ℚ) := by
      have h' : meanQ (q :: qs') ≤ (((qs'.foldl Nat.max q : Nat) : ℤ) : ℚ) := by
        push_cast
        exact_mod_cast hmean_hi
      have := round2_le h'
      exact_mod_cast this
    refine ⟨rfl, ?_, ?_, ?_, ?_, havg_lo, havg_hi, ?_⟩
    · simpa [statsOfList] using foldl_max_mem qs' q
    · intro x hx; exact hmaxle x hx
    · simpa [statsOfList] using hminmem
    · intro x hx; exact hminle x hx
    · intro q0 heq
      have hq : q = q0 ∧ qs' = [] := by
        constructor <;> injection heq with h1 h2
      obtain ⟨hq1, hq2⟩ := hq
      subst hq1; subst hq2
      refine ⟨?_, rfl, rfl⟩
      show round2 ((([q].map fun n : Nat => (n : ℚ)).sum) / ((([q] : List Nat).length : Nat) : ℚ)) = (q : ℚ)
      have hm : (([q].map fun n : Nat => (n : ℚ)).sum) / ((([q] : List Nat).length : Nat) : ℚ) = ((q : ℤ) : ℚ) := by
        push_cast
        simp
      rw [hm, round2_intCast]
      push_cast
      rfl

/-- Witness for C1 at the singleton quantity list `[5]`. -/
theorem computeStats_correct_witness :
    ((5 : Nat) : ℚ) ≤ (Stats.mk 5 5 5).avg ∧ (Stats.mk 5 5 5).avg ≤ ((5 : Nat) : ℚ) := by
  have h5 : (([5].map fun n : Nat => (n : ℚ)).sum) / ((([5] : List Nat).length : Nat) : ℚ) =
      ((5 : ℤ) : ℚ) := by
    norm_num
  have hc : computeStats [5] = some (Stats.mk 5 5 5) := by
    simp only [computeStats, statsOfList, h5, round2_intCast]
    norm_num
  exact ⟨(computeStats_correct [5] (Stats.mk 5 5 5) hc).2.2.2.2.2.1,
    (computeStats_correct [5] (Stats.mk 5 5 5) hc).2.2.2.2.2.2.1⟩

lemma keysOf_nil : keysOf [] = [] := rfl

lemma keysOf_cons (x : String × Nat) (l : List (String × Nat)) :
    keysOf (x :: l) = x.1 :: keysOf l := rfl

lemma lookupP_upsert (f : Nat → Nat → Nat) (acc : List (String × Nat)) (k : String) (q : Nat)
    (p : String) :
    lookupP (upsert f acc k q) p =
      if p = k then
        some (match lookupP acc k with | none => q | some v => f v q)
      else lookupP acc p := by
  induction acc with
  | nil =>
    by_cases h : p = k
    · subst h
      simp [upsert, lookupP]
    · have h' : ¬ k = p := fun hh => h hh.symm
      simp [upsert, lookupP, h, h']
  | cons hd tl ih =>
    obtain ⟨p0, v0⟩ := hd
    by_cases h0 : p0 = k
    · subst h0
      by_cases hp : p = p0
      · subst hp
        simp [upsert, lookupP]
      · have hp' : ¬ p0 = p := fun hh => hp hh.symm
        simp [upsert, lookupP, hp, hp']
    · by_cases hp : p = k
      · subst hp
        have h0' : ¬ p0 = p := h0
        simp [upsert, lookupP, h0, h0', ih]
      · by_cases hph : p0 = p
        · subst hph
          simp [upsert, lookupP, h0, hp]
        · simp [upsert, lookupP, h0, hp, hph, ih]

lemma lookupP_foldl (f : Nat → Nat → Nat) :
    ∀ (rows : List ForecastRow) (acc : List (String × Nat)) (p : String),
      lookupP (rows.foldl (fun a r => upsert f a r.product_id r.forecast_qty) acc) p =
        match lookupP acc p with
        | none => accF f (groupQtys rows p)
        | some v => some ((groupQtys rows p).foldl f v) := by
  intro rows
  induction rows with
  | nil =>
    intro acc p
    simp only [List.foldl_nil, groupQtys, List.filter_nil, List.map_nil, accF]
    cases lookupP acc p <;> simp
  | cons r t ih =>
    intro acc p
    simp only [List.foldl_cons]
    rw [ih, lookupP_upsert]
    by_cases hp : r.product_id = p
    · subst hp
      have hq : groupQtys (r :: t) r.product_id =
          r.forecast_qty :: groupQtys t r.product_id := by
        simp [groupQtys, List.filter_cons]
      rw [hq, if_pos rfl]
      cases hacc : lookupP acc r.product_id <;> simp [accF]
    · have hq : groupQtys (r :: t) p = groupQtys t p := by
        simp [groupQtys, List.filter_cons, hp]
      rw [hq, if_neg (fun hh => hp hh.symm)]

lemma lookupP_groupBy (f : Nat → Nat → Nat) (rows : List ForecastRow) (p : String) :
    lookupP (groupBy f rows) p = accF f (groupQtys rows p) := by
  have h := lookupP_foldl f rows [] p
  simpa [groupBy, lookupP] using h

lemma keysOf_upsert (f : Nat → Nat → Nat) (acc : List (String × Nat)) (k : String) (q : Nat) :
    keysOf (upsert f acc k q) =
      if k ∈ keysOf acc then keysOf acc else keysOf acc ++ [k] := by
  induction acc with
  | nil => simp [upsert, keysOf]
  | cons hd tl ih =>
    obtain ⟨p0, v0⟩ := hd
    by_cases h0 : p0 = k
    · subst h0
      simp [upsert, keysOf]
    · have h0' : ¬ k = p0 := fun hh => h0 hh.symm
      by_cases hk : k ∈ keysOf tl
      · have ihh : keysOf (upsert f tl k q) = keysOf tl := by rw [ih, if_pos hk]
        simp only [upsert, if_neg h0, keysOf_cons, List.map_cons]
        rw [ihh, if_pos (by exact List.mem_cons_of_mem _ hk)]
      · have ihh : keysOf (upsert f tl k q) = keysOf tl ++ [k] := by rw [ih, if_neg hk]
        simp only [upsert, if_neg h0, keysOf_cons, List.map_cons]
        rw [ihh, if_neg (by simp [hk, h0'])]
        simp

lemma nodup_keysOf_groupBy (f : Nat → Nat → Nat) (rows : List ForecastRow) :
    (keysOf (groupBy f rows)).Nodup := by
  suffices h : ∀ (rows : List ForecastRow) (acc : List (String × Nat)),
      (keysOf acc).Nodup →
      (keysOf (rows.foldl (fun a r => upsert f a r.product_id r.forecast_qty) acc)).Nodup by
    exact h rows [] (by simp [keysOf])
  intro rows
  induction rows with
  | nil => intro acc h; simpa using h
  | cons r t ih =>
    intro acc h
    simp only [List.foldl_cons]
    apply ih
    rw [keysOf_upsert]
    by_cases hk : r.product_id ∈ keysOf acc
    · simpa [hk] using h
    · rw [if_neg hk, List.nodup_append]
      exact ⟨h, List.nodup_singleton _, by simpa using hk⟩

lemma mem_lookupP {l : List (String × Nat)} {p : String} {v : Nat}
    (hmem : (p, v) ∈ l) (hnd : (keysOf l).Nodup) : lookupP l p = some v := by
  induction l with
  | nil => simp at hmem
  | cons hd tl ih =>
    obtain ⟨p0, v0⟩ := hd
    rw [keysOf_cons, List.nodup_cons] at hnd
    rcases List.mem_cons.mp hmem with h | h
    · cases h
      simp [lookupP]
    · by_cases hp0 : p0 = p
      · subst hp0
        exact absurd (List.mem_map_of_mem Prod.fst h) hnd.1
      · simp only [lookupP, if_neg hp0]
        exact ih h hnd.2

lemma lookupP_mem {l : List (String × Nat)} {p : String} {v : Nat}
    (h : lookupP l p = some v) : (p, v) ∈ l := by
  induction l with
  | nil => simp [lookupP] at h
  | cons hd tl ih =>
    obtain ⟨p0, v0⟩ := hd
    by_cases hp0 : p0 = p
    · subst hp0
      rw [lookupP, if_pos rfl] at h
      injection h with h
      subst h
      exact List.mem_cons_self _ _
    · rw [lookupP, if_neg hp0] at h
      exact List.mem_cons_of_mem _ (ih h)

lemma mem_firstSeenNotIn {seen l : List String} {x : String}
    (h : x ∈ firstSeenNotIn seen l) : x ∉ seen ∧ x ∈ l := by
  induction l generalizing seen with
  | nil => simp [firstSeenNotIn] at h
  | cons p ps ih =>
    by_cases hp : p ∈ seen
    · simp only [firstSeenNotIn, if_pos hp] at h
      obtain ⟨h1, h2⟩ := ih h
      exact ⟨h1, List.mem_cons_of_mem _ h2⟩
    · simp only [firstSeenNotIn, if_neg hp] at h
      rcases List.mem_cons.mp h with h | h
      · subst h
        exact ⟨hp, List.mem_cons_self _ _⟩
      · obtain ⟨h1, h2⟩ := ih h
        exact ⟨fun hs => h1 (List.mem_cons_of_mem _ hs), List.mem_cons_of_mem _ h2⟩

lemma firstSeenNotIn_congr {s1 s2 : List String} (l : List String)
    (h : ∀ x, x ∈ s1 ↔ x ∈ s2) : firstSeenNotIn s1 l = firstSeenNotIn s2 l := by
  induction l generalizing s1 s2 with
  | nil => rfl
  | cons p ps ih =>
    simp only [firstSeenNotIn]
    by_cases hp : p ∈ s1
    · rw [if_pos hp, if_pos ((h p).mp hp)]
      exact ih h
    · rw [if_neg hp, if_neg (fun hh => hp ((h p).mpr hh))]
      exact congrArg (p :: ·) (ih fun x => by simp [List.mem_cons, h x])

lemma pairwise_idx_firstSeenNotIn :
    ∀ (l seen : List String),
      (firstSeenNotIn seen l).Pairwise fun a b => idxOf a l < idxOf b l := by
  intro l
  induction l with
  | nil => intro seen; simp [firstSeenNotIn]
  | cons p ps ih =>
    intro seen
    by_cases hp : p ∈ seen
    · simp only [firstSeenNotIn, if_pos hp]
      refine List.Pairwise.imp_of_mem ?_ (ih seen)
      intro a b ha hb hr
      have hna : p ≠ a := fun hh => (mem_firstSeenNotIn ha).1 (hh ▸ hp)
      have hnb : p ≠ b := fun hh => (mem_firstSeenNotIn hb).1 (hh ▸ hp)
      simp only [idxOf, if_neg hna, if_neg hnb]
      omega
    · simp only [firstSeenNotIn, if_neg hp]
      refine List.Pairwise.cons ?_ ?_
      · intro b hb
        have hnb : p ≠ b := by
          intro hh
          exact (mem_firstSeenNotIn hb).1 (hh ▸ List.mem_cons_self p seen)
        simp [idxOf, hnb]
      · refine List.Pairwise.imp_of_mem ?_ (ih (p :: seen))
        intro a b ha hb hr
        have hna : p ≠ a := by
          intro hh
          exact (mem_firstSeenNotIn ha).1 (hh ▸ List.mem_cons_self p seen)
        have hnb : p ≠ b := by
          intro hh
          exact (mem_firstSeenNotIn hb).1 (hh ▸ List.mem_cons_self p seen)
        simp only [idxOf, if_neg hna, if_neg hnb]
        omega

lemma keysOf_foldl (f : Nat → Nat → Nat) :
    ∀ (rows : List ForecastRow) (acc : List (String × Nat)),
      keysOf (rows.foldl (fun a r => upsert f a r.product_id r.forecast_qty) acc) =
        keysOf acc ++ firstSeenNotIn (keysOf acc) (rows.map (·.product_id)) := by
  intro rows
  induction rows with
  | nil => intro acc; simp [firstSeenNotIn]
  | cons r t ih =>
    intro acc
    simp only [List.foldl_cons, List.map_cons]
    rw [ih, keysOf_upsert]
    by_cases hk : r.product_id ∈ keysOf acc
    · rw [if_pos hk]
      simp only [firstSeenNotIn, if_pos hk]
    · rw [if_neg hk]
      simp only [firstSeenNotIn, if_neg hk]
      have hcongr : firstSeenNotIn (keysOf acc ++ [r.product_id]) (t.map (·.product_id)) =
          firstSeenNotIn (r.product_id :: keysOf acc) (t.map (·.product_id)) :=
        firstSeenNotIn_congr _ fun x => by simp [List.mem_append, List.mem_cons, or_comm]
      rw [hcongr]
      simp

lemma keysOf_groupBy (f : Nat → Nat → Nat) (rows : List ForecastRow) :
    keysOf (groupBy f rows) = firstSeenNotIn [] (rows.map (·.product_id)) := by
  have h := keysOf_foldl f rows []
  simpa [groupBy, keysOf] using h

lemma pairwise_orderedInsert (L : List String) (a : String × Nat)
    (l : List (String × Nat)) (hs : List.Sorted totalGe l) (hp : l.Pairwise (stRel L))
    (ha : ∀ x ∈ l, idxOf a.1 L < idxOf x.1 L) :
    (List.orderedInsert totalGe a l).Pairwise (stRel L) := by
  induction l with
  | nil => simp [List.orderedInsert, stRel]
  | cons x l' ih =>
    obtain ⟨hsx, hs'⟩ := List.sorted_cons.mp hs
    obtain ⟨hpx, hp'⟩ := List.pairwise_cons.mp hp
    simp only [List.orderedInsert]
    by_cases hax : totalGe a x
    · rw [if_pos hax]
      refine List.Pairwise.cons ?_ hp
      intro y hy
      rcases List.mem_cons.mp hy with h | h
      · subst h
        rcases Nat.lt_or_ge y.2 a.2 with hlt | hge
        · exact Or.inl hlt
        · have heq : a.2 = y.2 := le_antisymm hge hax
          exact Or.inr ⟨heq, ha y (List.mem_cons_self _ _)⟩
      · have hyx : y.2 ≤ x.2 := hsx y h
        rcases Nat.lt_or_ge y.2 a.2 with hlt | hge
        · exact Or.inl hlt
        · have heq : a.2 = y.2 := le_antisymm hge (le_trans hyx hax)
          exact Or.inr ⟨heq, ha y (List.mem_cons_of_mem _ h)⟩
    · rw [if_neg hax]
      have hax' : a.2 < x.2 := Nat.lt_of_not_le hax
      refine List.Pairwise.cons ?_ ?_
      · intro y hy
        rcases (List.mem_orderedInsert totalGe).mp hy with h | h
        · subst h
          exact Or.inl hax'
        · exact hpx y h
      · exact ih hs' hp' fun y hy => ha y (List.mem_cons_of_mem _ hy)

lemma pairwise_insertionSort (L : List String) (l : List (String × Nat))
    (h : l.Pairwise fun a b => idxOf a.1 L < idxOf b.1 L) :
    (List.insertionSort totalGe l).Pairwise (stRel L) := by
  induction l with
  | nil => simp
  | cons a l' ih =>
    obtain ⟨ha, h'⟩ := List.pairwise_cons.mp h
    simp only [List.insertionSort]
    refine pairwise_orderedInsert L a _ (List.sorted_insertionSort totalGe l') (ih h') ?_
    intro x hx
    exact ha x ((List.perm_insertionSort totalGe l').mem_iff.mp hx)

lemma pairwise_idx_groupBy (f : Nat → Nat → Nat) (rows : List ForecastRow) :
    (groupBy f rows).Pairwise fun a b =>
      idxOf a.1 (rows.map (·.product_id)) < idxOf b.1 (rows.map (·.product_id)) := by
  have hp := pairwise_idx_firstSeenNotIn (rows.map (·.product_id)) []
  rw [← keysOf_groupBy f rows] at hp
  exact (@List.pairwise_map (String × Nat) String Prod.fst
    (fun a b => idxOf a (rows.map (·.product_id)) < idxOf b (rows.map (·.product_id)))
    (groupBy f rows)).mp hp

lemma foldl_add_sum : ∀ (qs : List Nat) (q : Nat), qs.foldl (· + ·) q = q + qs.sum := by
  intro qs
  induction qs with
  | nil => intro q; simp
  | cons a t ih =>
    intro q
    simp only [List.foldl_cons, ih, List.sum_cons]
    omega

lemma accF_min_inv {l : List Nat} {m : Nat} (h : accF Nat.min l = some m) :
    m ∈ l ∧ ∀ x ∈ l, m ≤ x := by
  cases l with
  | nil => simp [accF] at h
  | cons q qs =>
    simp only [accF] at h
    injection h with h
    subst h
    exact ⟨foldl_min_mem qs q, foldl_min_le qs q⟩

lemma accF_min_eq {l : List Nat} {m : Nat} (hmem : m ∈ l) (hle : ∀ x ∈ l, m ≤ x) :
    accF Nat.min l = some m := by
  cases l with
  | nil => simp at hmem
  | cons q qs =>
    simp only [accF]
    have h1 : qs.foldl Nat.min q ∈ q :: qs := foldl_min_mem qs q
    have h2 := foldl_min_le qs q m hmem
    have h3 := hle _ h1
    exact congrArg some (le_antisymm h2 h3)

/-- C2: `fetch_top_skus` returns at most `limit` pairs, sorted descending by
total, every returned pair carries the exact total quantity of a product of
the table, ties in total are ordered by first occurrence of the product in
the table (`stRel`), and on the example rows `[(A,3),(B,10),(A,5)]` of the spec
with limit 10 it returns exactly `[(B,10),(A,8)]` (with tie behaviour
witnessed on `tieDemo`). -/
theorem fetch_top_skus_correct (table : List ForecastRow) (limit : Nat) :
    (fetch_top_skus table limit).length ≤ limit ∧
    List.Sorted totalGe (fetch_top_skus table limit) ∧
    (∀ pr ∈ fetch_top_skus table limit,
      pr.2 = totalQty table pr.1 ∧ pr.1 ∈ table.map (·.product_id)) ∧
    List.Pairwise (stRel (table.map (·.product_id))) (fetch_top_skus table limit) ∧
    fetch_top_skus topDemo 10 = [("B", 10), ("A", 8)] ∧
    fetch_top_skus tieDemo 10 = [("A", 4), ("B", 4)] := by
  simp only [fetch_top_skus]
  refine ⟨?_, ?_, ?_, ?_, by decide, by decide⟩
  · simp only [List.length_take]
    omega
  · exact List.Pairwise.sublist (List.take_sublist _ _) (List.sorted_insertionSort totalGe _)
  · intro pr hpr
    have hmem1 : pr ∈ List.insertionSort totalGe (groupBy (· + ·) table) :=
      (List.take_sublist _ _).subset hpr
    have hmem2 : pr ∈ groupBy (· + ·) table :=
      (List.perm_insertionSort totalGe _).mem_iff.mp hmem1
    have hl : lookupP (groupBy (· + ·) table) pr.1 = some pr.2 :=
      mem_lookupP hmem2 (nodup_keysOf_groupBy _ _)
    rw [lookupP_groupBy] at hl
    cases hg : groupQtys table pr.1 with
    | nil =>
      rw [hg] at hl
      simp [accF] at hl
    | cons q qs =>
      rw [hg] at hl
      simp only [accF] at hl
      injection hl with hl
      constructor
      · rw [totalQty, hg, ← hl, foldl_add_sum]
        simp
      · have hne : (table.filter fun r => decide (r.product_id = pr.1)) ≠ [] := by
          intro hnil
          rw [groupQtys, hnil] at hg
          simp at hg
        cases hf : table.filter fun r => decide (r.product_id = pr.1) with
        | nil => exact absurd hf hne
        | cons r rest =>
          have hrmem : r ∈ table.filter fun r => decide (r.product_id = pr.1) := by
            rw [hf]
            exact List.mem_cons_self _ _
          have hr := List.mem_filter.mp hrmem
          have hpid : r.product_id = pr.1 := by simpa using hr.2
          exact hpid ▸ List.mem_map_of_mem (·.product_id) hr.1
  · exact List.Pairwise.sublist (List.take_sublist _ _)
      (pairwise_insertionSort _ _ (pairwise_idx_groupBy _ table))

/-- Witness for C2: the pair `(B, 10)` returned on the demo table carries
the true total of product `B`. -/
theorem fetch_top_skus_correct_witness :
    (("B", 10) : String × Nat).2 = totalQty topDemo ("B", 10).1 :=
  ((fetch_top_skus_correct topDemo 10).2.2.1 ("B", 10) (by decide)).1

/-- C3: every pair returned by `fetch_critical_skus` has a value strictly
below 5 that is the true minimum quantity of the rows of its product; conversely
every product whose minimum is below 5 is returned with that minimum; on the
example rows `[(A,2),(A,8),(B,6)]` of the spec it returns exactly `[(A, 2)]`. -/
theorem fetch_critical_skus_correct (table : List ForecastRow) :
    (∀ pr ∈ fetch_critical_skus table,
      pr.2 < 5 ∧ pr.2 ∈ groupQtys table pr.1 ∧ ∀ x ∈ groupQtys table pr.1, pr.2 ≤ x) ∧
    (∀ p m, m ∈ groupQtys table p → (∀ x ∈ groupQtys table p, m ≤ x) → m < 5 →
      (p, m) ∈ fetch_critical_skus table) ∧
    fetch_critical_skus critDemo = [("A", 2)] := by
  refine ⟨?_, ?_, by decide⟩
  · intro pr hpr
    have hm := List.mem_filter.mp hpr
    have hlt : pr.2 < 5 := by simpa using hm.2
    have hl : lookupP (groupBy Nat.min table) pr.1 = some pr.2 :=
      mem_lookupP hm.1 (nodup_keysOf_groupBy _ _)
    rw [lookupP_groupBy] at hl
    obtain ⟨h1, h2⟩ := accF_min_inv hl
    exact ⟨hlt, h1, h2⟩
  · intro p m hmem hle hlt
    have hl : lookupP (groupBy Nat.min table) p = some m := by
      rw [lookupP_groupBy]
      exact accF_min_eq hmem hle
    exact List.mem_filter.mpr ⟨lookupP_mem hl, by simpa using hlt⟩

/-- Witness for C3: product `A` with minimum 2 is critical on the demo
table. -/
theorem fetch_critical_skus_correct_witness :
    ("A", 2) ∈ fetch_critical_skus critDemo :=
  (fetch_critical_skus_correct critDemo).2.1 "A" 2 (by decide) (by decide) (by decide)

lemma and_reorder (a b c d : Bool) : ((c && d) && (a && b)) = (((a && b) && c) && d) := by
  cases a <;> cases b <;> cases c <;> cases d <;> rfl

lemma fetch_forecasts_sorted (table : List ForecastRow) (sid pid : String)
    (sd ed : Option String) : List.Sorted dateLe (fetch_forecasts table sid pid sd ed) :=
  List.sorted_insertionSort dateLe _

lemma sorted_date_le_getLastD :
    ∀ (l : List ForecastRow) (d : ForecastRow), List.Sorted dateLe l →
      ∀ r ∈ l, r.forecast_date ≤ (l.getLastD d).forecast_date := by
  intro l
  induction l with
  | nil => simp
  | cons a t ih =>
    intro d hs r hr
    obtain ⟨ha, hs'⟩ := List.sorted_cons.mp hs
    cases t with
    | nil =>
      simp only [List.mem_singleton] at hr
      subst hr
      simp [List.getLastD]
    | cons b t' =>
      rw [List.getLastD_cons]
      rcases List.mem_cons.mp hr with h | h
      · subst h
        have hab : r.forecast_date ≤ b.forecast_date := ha b (List.mem_cons_self _ _)
        exact le_trans hab (ih r hs' b (List.mem_cons_self _ _))
      · exact ih a hs' r h

lemma fetch_forecasts_none_eq (table : List ForecastRow) (sid pid : String) :
    fetch_forecasts table sid pid none none =
      List.insertionSort dateLe
        (table.filter fun r => decide (r.store_id = sid) && decide (r.product_id = pid)) := by
  simp only [fetch_forecasts]
  rw [if_neg (by simp [truthy])]

lemma fetch_forecasts_range_eq (table : List ForecastRow) (sid pid s e : String)
    (hs : s ≠ "") (he : e ≠ "") :
    fetch_forecasts table sid pid (some s) (some e) =
      List.insertionSort dateLe
        ((table.filter fun r => decide (r.store_id = sid) && decide (r.product_id = pid)).filter
          fun r => decide (s ≤ r.forecast_date) && decide (r.forecast_date ≤ e)) := by
  simp only [fetch_forecasts, Option.getD_some]
  rw [if_pos (by simp [truthy, hs, he])]

/-- C7: with no date range, `fetch_forecasts` returns exactly the rows of the
store/product pair (as a permutation, so with multiplicity), ordered
ascending by `forecast_date`; with both bounds given it returns exactly the
rows of the pair whose date lies in the closed interval, still ascending. -/
theorem fetch_forecasts_correct (table : List ForecastRow) (sid pid s e : String)
    (hs : s ≠ "") (he : e ≠ "") :
    (fetch_forecasts table sid pid none none).Perm
      (table.filter fun r => decide (r.store_id = sid) && decide (r.product_id = pid)) ∧
    List.Sorted dateLe (fetch_forecasts table sid pid none none) ∧
    (fetch_forecasts table sid pid (some s) (some e)).Perm
      (table.filter fun r => decide (r.store_id = sid) && decide (r.product_id = pid) &&
        decide (s ≤ r.forecast_date) && decide (r.forecast_date ≤ e)) ∧
    List.Sorted dateLe (fetch_forecasts table sid pid (some s) (some e)) := by
  have hcomb :
      ((table.filter fun r => decide (r.store_id = sid) && decide (r.product_id = pid)).filter
          fun r => decide (s ≤ r.forecast_date) && decide (r.forecast_date ≤ e)) =
        table.filter fun r => decide (r.store_id = sid) && decide (r.product_id = pid) &&
          decide (s ≤ r.forecast_date) && decide (r.forecast_date ≤ e) := by
    rw [List.filter_filter]
    exact List.filter_congr fun x _ => and_reorder _ _ _ _
  refine ⟨?_, fetch_forecasts_sorted table sid pid none none, ?_,
    fetch_forecasts_sorted table sid pid (some s) (some e)⟩
  · rw [fetch_forecasts_none_eq]
    exact List.perm_insertionSort dateLe _
  · rw [fetch_forecasts_range_eq table sid pid s e hs he, hcomb]
    exact List.perm_insertionSort dateLe _

/-- Witness for C7 on the demo table with the range `[2024-01-01,
2024-12-31]`. -/
theorem fetch_forecasts_correct_witness :
    (fetch_forecasts topDemo "S1" "A" (some "2024-01-01") (some "2024-12-31")).Perm
      (topDemo.filter fun r => decide (r.store_id = "S1") && decide (r.product_id = "A") &&
        decide ("2024-01-01" ≤ r.forecast_date) && decide (r.forecast_date ≤ "2024-12-31")) :=
  (fetch_forecasts_correct topDemo "S1" "A" "2024-01-01" "2024-12-31"
    (by decide) (by decide)).2.2.1

/-- C10: when at most one of the two date bounds is truthy (the other absent
or the empty string), `fetch_forecasts` applies no date restriction and
returns exactly what the rangeless fetch returns. -/
theorem fetch_forecasts_single_bound (table : List ForecastRow) (sid pid : String)
    (sd ed : Option String)
    (h : (truthy sd = true ∧ truthy ed = false) ∨ (truthy sd = false ∧ truthy ed = true)) :
    fetch_forecasts table sid pid sd ed = fetch_forecasts table sid pid none none := by
  rw [fetch_forecasts_none_eq]
  simp only [fetch_forecasts]
  rcases h with ⟨h1, h2⟩ | ⟨h1, h2⟩ <;> rw [if_neg (by simp [h1, h2])]

/-- Witness for C10: only a start date given on the demo table. -/
theorem fetch_forecasts_single_bound_witness :
    fetch_forecasts topDemo "S1" "A" (some "2024-01-01") none =
      fetch_forecasts topDemo "S1" "A" none none :=
  fetch_forecasts_single_bound topDemo "S1" "A" (some "2024-01-01") none
    (Or.inl ⟨by decide, by decide⟩)

lemma forecast_ok_inv {db : Except String (List ForecastRow)} {f : Form}
    {resp : ForecastResponse} (h : forecast db f = .ok resp) :
    ∃ table r0 rs,
      db = .ok table ∧
      fetch_forecasts table (f.store_id.getD "") (f.product_id.getD "")
        f.start_date f.end_date = r0 :: rs ∧
      resp = { latest_qty := ((r0 :: rs).getLastD r0).forecast_qty
               latest_date := ((r0 :: rs).getLastD r0).forecast_date
               latest_model := ((r0 :: rs).getLastD r0).model
               history := (r0 :: rs).map fun x => (x.forecast_date, x.forecast_qty, x.model)
               stats := statsOfList r0.forecast_qty (rs.map (·.forecast_qty))
               top_skus := fetch_top_skus table 10
               critical_skus := fetch_critical_skus table } := by
  by_cases hc : truthy f.store_id && truthy f.product_id
  · cases db with
    | error e =>
      unfold forecast at h
      rw [if_pos hc] at h
      simp at h
    | ok table =>
      have hred : forecast (Except.ok table) f =
          (match fetch_forecasts table (f.store_id.getD "") (f.product_id.getD "")
              f.start_date f.end_date with
           | [] => ForecastResult.notFound "No forecast found"
           | r0 :: rs =>
             ForecastResult.ok
               { latest_qty := ((r0 :: rs).getLastD r0).forecast_qty
                 latest_date := ((r0 :: rs).getLastD r0).forecast_date
                 latest_model := ((r0 :: rs).getLastD r0).model
                 history := (r0 :: rs).map fun x => (x.forecast_date, x.forecast_qty, x.model)
                 stats := statsOfList r0.forecast_qty (rs.map (·.forecast_qty))
                 top_skus := fetch_top_skus table 10
                 critical_skus := fetch_critical_skus table }) := by
        unfold forecast
        rw [if_pos hc]
      rw [hred] at h
      split at h
      · exact ForecastResult.noConfusion h
      · rename_i r0 rs hf
        injection h with h
        exact ⟨table, r0, rs, rfl, hf, h.symm⟩
  · unfold forecast at h
    rw [if_neg hc] at h
    exact ForecastResult.noConfusion h

/-- C9: whenever `/forecast` succeeds, the `latest` entry of the response is
the last element of the (ascending-ordered, non-empty) fetched row sequence,
and its `forecast_date` is greatest among the fetched rows (so among rows
tied on the greatest date, the last one in fetch order wins). -/
theorem forecast_latest_correct (table : List ForecastRow) (f : Form)
    (resp : ForecastResponse) (h : forecast (.ok table) f = .ok resp) :
    fetch_forecasts table (f.store_id.getD "") (f.product_id.getD "")
        f.start_date f.end_date ≠ [] ∧
    resp.latest_date = ((fetch_forecasts table (f.store_id.getD "") (f.product_id.getD "")
        f.start_date f.end_date).getLastD default).forecast_date ∧
    resp.latest_qty = ((fetch_forecasts table (f.store_id.getD "") (f.product_id.getD "")
        f.start_date f.end_date).getLastD default).forecast_qty ∧
    resp.latest_model = ((fetch_forecasts table (f.store_id.getD "") (f.product_id.getD "")
        f.start_date f.end_date).getLastD default).model ∧
    ∀ r ∈ fetch_forecasts table (f.store_id.getD "") (f.product_id.getD "")
        f.start_date f.end_date, r.forecast_date ≤ resp.latest_date := by
  obtain ⟨table', r0, rs, hdb, hf, hresp⟩ := forecast_ok_inv h
  injection hdb with hdb
  subst hdb
  have hsorted : List.Sorted dateLe (r0 :: rs) := by
    rw [← hf]
    exact fetch_forecasts_sorted _ _ _ _ _
  subst hresp
  rw [hf]
  refine ⟨by simp, by rw [List.getLastD_cons, List.getLastD_cons], by
    rw [List.getLastD_cons, List.getLastD_cons], by
    rw [List.getLastD_cons, List.getLastD_cons], ?_⟩
  intro r hr
  exact sorted_date_le_getLastD (r0 :: rs) r0 hsorted r hr

/-- Witness for C9 on the demo table: the reported latest entry is the
last fetched row and has the greatest date. -/
theorem forecast_latest_correct_witness :
    fetch_forecasts topDemo "S2" "A" none none ≠ [] ∧
    ∀ r ∈ fetch_forecasts topDemo "S2" "A" none none,
      r.forecast_date ≤ forecastDemoResp.latest_date := by
  have h := forecast_latest_correct topDemo ⟨some "S2", some "A", none, none⟩
    forecastDemoResp rfl
  exact ⟨by simpa using h.1, by simpa using h.2.2.2.2⟩

lemma forecast_reduce (table : List ForecastRow) (f : Form)
    (hc : (truthy f.store_id && truthy f.product_id) = true) :
    forecast (Except.ok table) f =
      match fetch_forecasts table (f.store_id.getD "") (f.product_id.getD "")
          f.start_date f.end_date with
      | [] => ForecastResult.notFound "No forecast found"
      | r0 :: rs =>
        ForecastResult.ok
          { latest_qty := ((r0 :: rs).getLastD r0).forecast_qty
            latest_date := ((r0 :: rs).getLastD r0).forecast_date
            latest_model := ((r0 :: rs).getLastD r0).model
            history := (r0 :: rs).map fun x => (x.forecast_date, x.forecast_qty, x.model)
            stats := statsOfList r0.forecast_qty (rs.map (·.forecast_qty))
            top_skus := fetch_top_skus table 10
            critical_skus := fetch_critical_skus table } := by
  unfold forecast
  rw [if_pos hc]

/-- C4: the `top_skus` and `critical_skus` parts of any two successful
`/forecast` responses over the same backing table are identical, regardless
of the requests' store/product/date-range filters: both are computed over
the entire table. -/
theorem forecast_top_critical_independent (table : List ForecastRow) (f1 f2 : Form)
    (r1 r2 : ForecastResponse)
    (h1 : forecast (.ok table) f1 = .ok r1) (h2 : forecast (.ok table) f2 = .ok r2) :
    r1.top_skus = r2.top_skus ∧ r1.critical_skus = r2.critical_skus := by
  obtain ⟨t1, a1, b1, hdb1, _, hr1⟩ := forecast_ok_inv h1
  obtain ⟨t2, a2, b2, hdb2, _, hr2⟩ := forecast_ok_inv h2
  injection hdb1 with hdb1
  injection hdb2 with hdb2
  subst hdb1
  subst hdb2
  subst hr1
  subst hr2
  exact ⟨rfl, rfl⟩

/-- Witness for C4: two requests differing in their store filter get the
same `top_skus` and `critical_skus`. -/
theorem forecast_top_critical_independent_witness :
    forecastDemoRespS1.top_skus = forecastDemoResp.top_skus ∧
    forecastDemoRespS1.critical_skus = forecastDemoResp.critical_skus :=
  forecast_top_critical_independent topDemo ⟨some "S1", some "A", none, none⟩
    ⟨some "S2", some "A", none, none⟩ forecastDemoRespS1 forecastDemoResp rfl rfl

/-- C5: a `/forecast` request with a missing (or empty) `store_id` or
`product_id` gets HTTP 400 with an `error` field; a request whose filter
matches zero rows gets HTTP 404 with an `error` field; and on every success
the statistics in the response are `computeStats` of a non-empty quantity
list, so the empty-input case of the statistics computation never reaches
the client. -/
theorem forecast_error_handling (db : Except String (List ForecastRow))
    (table : List ForecastRow) (f : Form) :
    (truthy f.store_id = false ∨ truthy f.product_id = false →
      status (forecast db f) = 400 ∧
      errorField (forecast db f) = some "store_id and product_id are required") ∧
    (truthy f.store_id = true → truthy f.product_id = true →
      fetch_forecasts table (f.store_id.getD "") (f.product_id.getD "")
        f.start_date f.end_date = [] →
      status (forecast (.ok table) f) = 404 ∧
      errorField (forecast (.ok table) f) = some "No forecast found") ∧
    (∀ resp, forecast (.ok table) f = .ok resp →
      fetch_forecasts table (f.store_id.getD "") (f.product_id.getD "")
        f.start_date f.end_date ≠ [] ∧
      computeStats ((fetch_forecasts table (f.store_id.getD "") (f.product_id.getD "")
        f.start_date f.end_date).map (·.forecast_qty)) = some resp.stats) := by
  refine ⟨?_, ?_, ?_⟩
  · intro h
    have hc : ¬ (truthy f.store_id && truthy f.product_id) = true := by
      rcases h with h | h <;> simp [h]
    unfold forecast
    rw [if_neg hc]
    exact ⟨rfl, rfl⟩
  · intro hs hp hempty
    have hc : (truthy f.store_id && truthy f.product_id) = true := by simp [hs, hp]
    rw [forecast_reduce table f hc, hempty]
    exact ⟨rfl, rfl⟩
  · intro resp h
    obtain ⟨t, r0, rs, hdb, hf, hresp⟩ := forecast_ok_inv h
    injection hdb with hdb
    subst hdb
    constructor
    · rw [hf]
      simp
    · rw [hf, hresp]
      simp [computeStats]

/-- Witness for C5: a missing store gets 400, an unmatched filter gets 404,
and the stats of a successful demo request come from `computeStats` on the
non-empty quantity list. -/
theorem forecast_error_handling_witness :
    status (forecast (Except.ok topDemo) ⟨none, some "A", none, none⟩) = 400 ∧
    status (forecast (Except.ok topDemo) ⟨some "S9", some "A", none, none⟩) = 404 ∧
    computeStats ((fetch_forecasts topDemo ((some "S2" : Option String).getD "")
      ((some "A" : Option String).getD "") none none).map (·.forecast_qty)) =
      some forecastDemoResp.stats := by
  refine ⟨?_, ?_, ?_⟩
  · exact ((forecast_error_handling (Except.ok topDemo) topDemo
      ⟨none, some "A", none, none⟩).1 (Or.inl (by decide))).1
  · exact ((forecast_error_handling (Except.ok topDemo) topDemo
      ⟨some "S9", some "A", none, none⟩).2.1 (by decide) (by decide) (by decide)).1
  · exact ((forecast_error_handling (Except.ok topDemo) topDemo
      ⟨some "S2", some "A", none, none⟩).2.2 forecastDemoResp rfl).2

/-- Counterexample to C6: on a backing-store failure the `/forecast` and
`/export` handlers do return HTTP 500, but the JSON `error` body is
`"Query failed: <exception>"` / `"Export failed: <exception>"`, which
contains the underlying cause verbatim (here, a message embedding the
backing-store URL) rather than a generic message. -/
theorem forecast_error_leak_cex :
    status (forecast (Except.error leakMsg) ⟨some "S1", some "P1", none, none⟩) = 500 ∧
    errorField (forecast (Except.error leakMsg) ⟨some "S1", some "P1", none, none⟩) =
      some ("Query failed: " ++ leakMsg) ∧
    leakMsg.data <:+: ("Query failed: " ++ leakMsg).data ∧
    exportErrorField (export_csv (Except.error leakMsg) ⟨some "S1", some "P1", none, none⟩) =
      some ("Export failed: " ++ leakMsg) ∧
    leakMsg.data <:+: ("Export failed: " ++ leakMsg).data := by
  refine ⟨rfl, rfl, ⟨"Query failed: ".data, [], by simp [String.data_append]⟩, rfl,
    ⟨"Export failed: ".data, [], by simp [String.data_append]⟩⟩

/-- C6 amended: when the backing store fails, `/forecast` and `/export`
return HTTP 500, but the `error` body is `"Query failed: <cause>"` /
`"Export failed: <cause>"`: the underlying exception text (which can embed
the backing-store URL) is included in the client-visible body, not hidden
behind a generic message. -/
theorem backend_error_500_message (e : String) (f : Form)
    (hs : truthy f.store_id = true) (hp : truthy f.product_id = true) :
    status (forecast (Except.error e) f) = 500 ∧
    errorField (forecast (Except.error e) f) = some ("Query failed: " ++ e) ∧
    e.data <:+: ("Query failed: " ++ e).data ∧
    exportStatus (export_csv (Except.error e) f) = 500 ∧
    exportErrorField (export_csv (Except.error e) f) = some ("Export failed: " ++ e) ∧
    e.data <:+: ("Export failed: " ++ e).data := by
  have hc : (truthy f.store_id && truthy f.product_id) = true := by simp [hs, hp]
  have h1 : forecast (Except.error e) f = .serverError ("Query failed: " ++ e) := by
    unfold forecast
    rw [if_pos hc]
  have h2 : export_csv (Except.error e) f = .serverError ("Export failed: " ++ e) := by
    unfold export_csv
    rw [if_pos hc]
  rw [h1, h2]
  refine ⟨rfl, rfl, ⟨"Query failed: ".data, [], by simp [String.data_append]⟩, rfl, rfl,
    ⟨"Export failed: ".data, [], by simp [String.data_append]⟩⟩

/-- Witness for the amended C6 at a concrete exception message and form. -/
theorem backend_error_500_message_witness :
    status (forecast (Except.error "boom") ⟨some "S1", some "P1", none, none⟩) = 500 ∧
    exportStatus (export_csv (Except.error "boom") ⟨some "S1", some "P1", none, none⟩) = 500 := by
  have h := backend_error_500_message "boom" ⟨some "S1", some "P1", none, none⟩
    (by decide) (by decide)
  exact ⟨h.1, h.2.2.2.1⟩

lemma scanUnquoted_append (f rest : List Char) (hf : needsQuote f = false)
    (hrest : restSep rest) : scanUnquoted (f ++ rest) = (f, rest) := by
  induction f with
  | nil =>
    rcases hrest with h | ⟨cs, h⟩ | ⟨cs, h⟩ <;> subst h <;> simp [scanUnquoted]
  | cons c f' ih =>
    simp only [needsQuote, List.any_cons, Bool.or_eq_false_iff,
      decide_eq_false_iff_not] at hf
    obtain ⟨⟨⟨⟨h1, h2⟩, h3⟩, h4⟩, hf'⟩ := hf
    have ih' := ih (by simpa [needsQuote, Bool.or_eq_false_iff, decide_eq_false_iff_not]
      using hf')
    simp [scanUnquoted, List.cons_append, h1, h3, h4, ih']

lemma scanQuoted_cons_ne (c : Char) (t : List Char) (hc : ¬ c = '"') :
    scanQuoted (c :: t) = (c :: (scanQuoted t).1, (scanQuoted t).2) := by
  cases t with
  | nil => simp [scanQuoted, hc]
  | cons c2 cs => simp [scanQuoted, hc]

lemma scanQuoted_quote_quote (cs : List Char) :
    scanQuoted ('"' :: '"' :: cs) = ('"' :: (scanQuoted cs).1, (scanQuoted cs).2) := by
  simp [scanQuoted]

lemma scanQuoted_quote_stop (t : List Char) (h : ∀ cs, t ≠ '"' :: cs) :
    scanQuoted ('"' :: t) = ([], t) := by
  cases t with
  | nil => simp [scanQuoted]
  | cons c2 cs =>
    have h2 : ¬ c2 = '"' := fun hh => h cs (by rw [hh])
    simp [scanQuoted, h2]

lemma scanQuoted_escape (f rest : List Char) (hrest : ∀ cs, rest ≠ '"' :: cs) :
    scanQuoted (escapeQ f ++ '"' :: rest) = (f, rest) := by
  induction f with
  | nil =>
    simpa [escapeQ] using scanQuoted_quote_stop rest hrest
  | cons c f' ih =>
    by_cases hc : c = '"'
    · subst hc
      show scanQuoted (('"' :: '"' :: escapeQ f') ++ '"' :: rest) = _
      rw [List.cons_append, List.cons_append, scanQuoted_quote_quote, ih]
    · simp only [escapeQ, if_neg hc, List.cons_append]
      rw [scanQuoted_cons_ne c _ hc, ih]

lemma parseField_encode (f rest : List Char) (hrest : restSep rest) :
    parseField (encodeField f ++ rest) = (f, rest) := by
  have hrq : ∀ cs, rest ≠ '"' :: cs := by
    rcases hrest with h | ⟨cs, h⟩ | ⟨cs, h⟩ <;> subst h <;> intro cs2 <;> simp
  by_cases hq : needsQuote f
  · simp only [encodeField, if_pos hq, List.cons_append, List.append_assoc,
      List.singleton_append]
    simp [parseField, scanQuoted_escape f rest hrq]
  · have hq' : needsQuote f = false := Bool.eq_false_iff.mpr hq
    rw [encodeField, if_neg hq]
    cases f with
    | nil =>
      rcases hrest with h | ⟨cs, h⟩ | ⟨cs, h⟩ <;> subst h <;> simp [parseField, scanUnquoted]
    | cons c f' =>
      have hcs := hq'
      simp only [needsQuote, List.any_cons, Bool.or_eq_false_iff,
        decide_eq_false_iff_not] at hcs
      obtain ⟨⟨⟨⟨h1, h2⟩, h3⟩, h4⟩, hf'⟩ := hcs
      simp only [List.cons_append, parseField]
      rw [if_neg h2]
      exact scanUnquoted_append (c :: f') rest hq' hrest

lemma parseFieldsAux_encode :
    ∀ (fs : List (List Char)) (rest : List Char) (fuel : Nat), fs ≠ [] →
      fs.length ≤ fuel →
      parseFieldsAux fuel (encodeFieldsSep fs ++ '\r' :: '\n' :: rest) = (fs, rest) := by
  intro fs
  induction fs with
  | nil => intro rest fuel h; exact absurd rfl h
  | cons f fs ih =>
    intro rest fuel _ hfuel
    cases fuel with
    | zero => simp at hfuel
    | succ fl =>
      cases fs with
      | nil =>
        have hp : parseField (encodeField f ++ '\r' :: '\n' :: rest) =
            (f, '\r' :: '\n' :: rest) :=
          parseField_encode f _ (Or.inr (Or.inr ⟨'\n' :: rest, rfl⟩))
        show parseFieldsAux (fl + 1) (encodeFieldsSep [f] ++ '\r' :: '\n' :: rest) = ([f], rest)
        rw [show encodeFieldsSep [f] = encodeField f from rfl]
        simp [parseFieldsAux, hp]
      | cons f2 fs2 =>
        have hp : parseField (encodeField f ++
              ',' :: (encodeFieldsSep (f2 :: fs2) ++ '\r' :: '\n' :: rest)) =
            (f, ',' :: (encodeFieldsSep (f2 :: fs2) ++ '\r' :: '\n' :: rest)) :=
          parseField_encode f _ (Or.inr (Or.inl ⟨_, rfl⟩))
        have hih := ih rest fl (by simp) (by
          simp only [List.length_cons] at hfuel ⊢
          omega)
        rw [show encodeFieldsSep (f :: f2 :: fs2) =
          encodeField f ++ ',' :: encodeFieldsSep (f2 :: fs2) from rfl]
        rw [List.append_assoc, List.cons_append]
        simp [parseFieldsAux, hp, hih]

lemma parseRecords_cons_eq (fl : Nat) (input : List Char) (h : input ≠ []) :
    parseRecords (fl + 1) input =
      (parseFieldsAux (input.length + 1) input).1 ::
        parseRecords fl (parseFieldsAux (input.length + 1) input).2 := by
  cases input with
  | nil => exact absurd rfl h
  | cons c cs => simp [parseRecords]

lemma encodeFieldsSep_length : ∀ fs : List (List Char),
    fs.length ≤ (encodeFieldsSep fs).length + 1 := by
  intro fs
  induction fs with
  | nil => simp [encodeFieldsSep]
  | cons f fs ih =>
    cases fs with
    | nil => simp [encodeFieldsSep]
    | cons f2 fs2 =>
      rw [show encodeFieldsSep (f :: f2 :: fs2) =
        encodeField f ++ ',' :: encodeFieldsSep (f2 :: fs2) from rfl]
      simp only [List.length_cons, List.length_append] at ih ⊢
      omega

lemma length_le_flatten (recs : List (List (List Char))) :
    recs.length ≤ ((recs.map encodeRecord).flatten).length := by
  induction recs with
  | nil => simp
  | cons rc recs ih =>
    simp only [List.map_cons, List.flatten_cons, List.length_append, List.length_cons]
    have h2 : 2 ≤ (encodeRecord rc).length := by
      simp [encodeRecord]
    omega

lemma parseRecords_encode :
    ∀ (recs : List (List (List Char))) (fuel : Nat), (∀ rc ∈ recs, rc ≠ []) →
      recs.length ≤ fuel →
      parseRecords fuel ((recs.map encodeRecord).flatten) = recs := by
  intro recs
  induction recs with
  | nil =>
    intro fuel _ _
    cases fuel <;> simp [parseRecords]
  | cons rc recs ih =>
    intro fuel hne hfuel
    cases fuel with
    | zero => simp at hfuel
    | succ fl =>
      have hrcne : rc ≠ [] := hne rc (List.mem_cons_self _ _)
      have hinput : (((rc :: recs).map encodeRecord).flatten) =
          encodeFieldsSep rc ++ '\r' :: '\n' :: ((recs.map encodeRecord).flatten) := by
        simp [encodeRecord, List.flatten_cons]
      have hne' : (((rc :: recs).map encodeRecord).flatten) ≠ [] := by
        rw [hinput]
        intro hcontra
        cases hfs : encodeFieldsSep rc <;> rw [hfs] at hcontra <;> simp at hcontra
      rw [parseRecords_cons_eq fl _ hne', hinput]
      rw [parseFieldsAux_encode rc ((recs.map encodeRecord).flatten)
        ((encodeFieldsSep rc ++ '\r' :: '\n' :: ((recs.map encodeRecord).flatten)).length + 1)
        hrcne (by
          have := encodeFieldsSep_length rc
          simp only [List.length_append, List.length_cons]
          omega)]
      show rc :: parseRecords fl ((recs.map encodeRecord).flatten) = rc :: recs
      rw [ih fl (fun x hx => hne x (List.mem_cons_of_mem _ hx)) (by
        simp only [List.length_cons] at hfuel
        omega)]

lemma mk_data (s : String) : String.mk s.data = s := rfl

lemma mk_comp_data : String.mk ∘ String.data = id := funext mk_data

lemma header_encode : encodeRecord (headerFields.map String.data) =
    ("forecast_date,store_id,product_id,forecast_qty,model\r\n").data := by
  rfl

/-- C8: the CSV export starts with the exact header line
`forecast_date,store_id,product_id,forecast_qty,model`, and parsing the whole
output with a standard CSV reader yields the header fields followed by one
record per input row, field-for-field in input order (dates as their
`YYYY-MM-DD` strings, quantities as their decimal strings). -/
theorem toCsv_roundTrip (rows : List ForecastRow) :
    parseCsv (toCsv rows) = headerFields :: rows.map rowFields ∧
    ("forecast_date,store_id,product_id,forecast_qty,model\r\n").data <+: (toCsv rows).data := by
  have hrecs : ∀ rc ∈ (headerFields :: rows.map rowFields).map
      (fun fs => fs.map String.data), rc ≠ [] := by
    intro rc hrc
    rcases List.mem_map.mp hrc with ⟨fs, hfs, rfl⟩
    rcases List.mem_cons.mp hfs with h | h
    · subst h
      simp [headerFields]
    · rcases List.mem_map.mp h with ⟨r, _, rfl⟩
      simp [rowFields]
  have hto : (toCsv rows).data =
      ((((headerFields :: rows.map rowFields).map (fun fs => fs.map String.data)).map
        encodeRecord).flatten) := by
    simp [toCsv, List.map_map, Function.comp]
    rfl
  have hlen := length_le_flatten
    ((headerFields :: rows.map rowFields).map (fun fs => fs.map String.data))
  constructor
  · show (parseRecords ((toCsv rows).data.length + 1) (toCsv rows).data).map
      (fun rcd => rcd.map String.mk) = headerFields :: rows.map rowFields
    rw [hto]
    rw [parseRecords_encode _ _ hrecs (by omega)]
    simp [List.map_map, mk_comp_data]
  · rw [hto]
    simp only [List.map_cons, List.flatten_cons]
    exact ⟨_, by rw [header_encode]⟩
